import Mathlib

/-
  Verification development for the event-api extraction service
  (src/services/baml-service).  Python floats are modelled as rationals,
  Python `None`-able string fields as `Option String`, and Python dicts as
  association lists.  All definitions below are translated from the source
  files named in their doc comments.
-/

set_option linter.unusedVariables false

/-! ## Python string primitives used by the service code -/

/-- Whitespace set of Python `str.strip()` and of the `re` class `\s`
(ASCII part): space, tab, newline, carriage return, vertical tab, form feed. -/
def pySpace (c : Char) : Bool :=
  c = ' ' || c = '\t' || c = '\n' || c = '\r' || c = '\x0b' || c = '\x0c'

/-- Python `str.strip()` on a character list. -/
def pyStripList (cs : List Char) : List Char :=
  ((cs.dropWhile pySpace).reverse.dropWhile pySpace).reverse

/-- Python `str.strip()`. -/
def pyStrip (s : String) : String := String.mk (pyStripList s.data)

/-- Python `str.lower()` (ASCII letters, which is all the code compares). -/
def pyLower (s : String) : String := String.mk (s.data.map Char.toLower)

/-- Does the needle occur as a contiguous run at the head of the haystack? -/
def subAt : List Char → List Char → Bool
  | [], _ => true
  | _ :: _, [] => false
  | a :: as, b :: bs => a = b && subAt as bs

/-- Python `needle in hay` substring containment, on character lists. -/
def containsSubList (needle : List Char) : List Char → Bool
  | [] => needle.isEmpty
  | c :: rest => subAt needle (c :: rest) || containsSubList needle rest

/-- Python `needle in hay` substring containment on strings. -/
def containsSub (hay needle : String) : Bool := containsSubList needle.data hay.data

/-- Python truthiness of an optional string field obtained by `dict.get`:
missing (`None`) and the empty string are falsy. -/
def pyTruthy : Option String → Bool
  | none => false
  | some s => !(s == "")

/-- Python `str.split()` with no separator: split on whitespace runs,
dropping empty pieces.  Only the word count is ever used. -/
def pyWords (s : String) : List (List Char) :=
  (s.data.splitOnP pySpace).filter (fun w => !w.isEmpty)

/-! ## Date validation: `datetime.strptime(s, "%Y-%m-%d")`
(src/services/baml-service/src/services/validation_service.py line 35) -/

def digitVal (c : Char) : Nat := c.toNat - 48

def natOfDigits (cs : List Char) : Nat :=
  cs.foldl (fun acc c => acc * 10 + digitVal c) 0

def isLeapYear (y : Nat) : Bool :=
  y % 4 = 0 && (y % 100 ≠ 0 || y % 400 = 0)

def daysInMonth (y m : Nat) : Nat :=
  if m = 2 then (if isLeapYear y then 29 else 28)
  else if m = 4 || m = 6 || m = 9 || m = 11 then 30
  else 31

/-- `datetime.strptime(s, "%Y-%m-%d")` succeeds exactly on strings of the
shape year-month-day where the year is exactly four digits, the month and
day are one or two digits (`1[0-2]|0[1-9]|[1-9]` resp.
`3[01]|[12]\d|0[1-9]|[1-9]` in CPython's `_strptime` table, i.e. values
1..12 and 1..31 without a bare leading zero run), and the `datetime`
constructor accepts the triple (year at least 1, day within the month).
First, a structural single-character splitter (Python `s.split('-')`). -/
def splitOnChar (sep : Char) : List Char → List (List Char)
  | [] => [[]]
  | c :: rest =>
    if c = sep then [] :: splitOnChar sep rest
    else
      match splitOnChar sep rest with
      | [] => [[c]]
      | w :: ws => (c :: w) :: ws

def validYMD (s : String) : Bool :=
  match splitOnChar '-' s.data with
  | [yc, mc, dc] =>
    yc.all Char.isDigit && mc.all Char.isDigit && dc.all Char.isDigit &&
    yc.length == 4 && (mc.length == 1 || mc.length == 2) &&
    (dc.length == 1 || dc.length == 2) &&
    (let y := natOfDigits yc
     let m := natOfDigits mc
     let d := natOfDigits dc
     1 ≤ y && 1 ≤ m && m ≤ 12 && 1 ≤ d && d ≤ daysInMonth y m)
  | _ => false

/-! ## Entity records (src/schemas/extraction.py), with fields optional as
the scorer reads them through `dict.get`. -/

structure ExtractedEvent where
  title : Option String := none
  description : Option String := none
  date : Option String := none
  time : Option String := none
  location : Option String := none
  event_type : Option String := none
  capacity : Option String := none
  price : Option String := none
  registration_url : Option String := none
  confidence_score : Option ℚ := none
deriving DecidableEq

structure ExtractedSpeaker where
  name : Option String := none
  title : Option String := none
  company : Option String := none
  bio : Option String := none
  linkedin_url : Option String := none
  twitter_url : Option String := none
  website_url : Option String := none
  confidence_score : Option ℚ := none
deriving DecidableEq

structure ExtractedCompany where
  name : Option String := none
  description : Option String := none
  industry : Option String := none
  website_url : Option String := none
  relationship_type : Option String := none
  confidence_score : Option ℚ := none
deriving DecidableEq

/-! ## ConfidenceScorer
(src/services/baml-service/src/services/validation_service.py) -/

/-- Keywords earning the title bonus in `score_event`. -/
def eventTitleKeywords : List String :=
  ["conference", "meetup", "workshop", "summit", "hackathon"]

/-- Title contribution of `score_event`: `(points, max points)`.  The title
block always contributes 30 to `max_score`; a title longer than 5
characters after stripping earns 30, and a keyword raises both the score
and the maximum by 5. -/
def eventTitlePart (t : Option String) : ℚ × ℚ :=
  match t with
  | none => (0, 30)
  | some s =>
    if s = "" then (0, 30)
    else
      let ts := pyStrip s
      if 5 < ts.data.length then
        if eventTitleKeywords.any (fun kw => containsSub (pyLower ts) kw)
        then (35, 35) else (30, 30)
      else (0, 30)

/-- Date contribution of `score_event`: 25 for a `%Y-%m-%d` date, 10 partial
credit for any other non-empty date string. -/
def eventDatePart (d : Option String) : ℚ :=
  match d with
  | none => 0
  | some s => if s = "" then 0 else if validYMD s then 25 else 10

/-- Location contribution of `score_event`: 20 when the stripped location is
longer than 3 characters. -/
def eventLocPart (l : Option String) : ℚ :=
  match l with
  | none => 0
  | some s =>
    if s = "" then 0 else if 3 < (pyStrip s).data.length then 20 else 0

/-- Description contribution of `score_event`: 15 over 50 stripped
characters, 8 over 10. -/
def eventDescPart (d : Option String) : ℚ :=
  match d with
  | none => 0
  | some s =>
    if s = "" then 0
    else
      if 50 < (pyStrip s).data.length then 15
      else if 10 < (pyStrip s).data.length then 8 else 0

def countTruthy (l : List (Option String)) : Nat :=
  (l.filter pyTruthy).length

/-- Bonus-field contribution of `score_event`:
`(present_fields / 4) * 10` over `time, event_type, registration_url, price`. -/
def eventBonusPart (e : ExtractedEvent) : ℚ :=
  (countTruthy [e.time, e.event_type, e.registration_url, e.price] : ℚ) / 4 * 10

/-- Final normalisation shared by the scorers:
`min(score / max_score, 1.0) if max_score > 0 else 0.0`. -/
def scoreOfParts (score maxScore : ℚ) : ℚ :=
  if 0 < maxScore then min (score / maxScore) 1 else 0

/-- `ConfidenceScorer.score_event` (validation_service.py lines 15-62). -/
def score_event (e : ExtractedEvent) : ℚ :=
  scoreOfParts
    ((eventTitlePart e.title).1 + eventDatePart e.date + eventLocPart e.location
      + eventDescPart e.description + eventBonusPart e)
    ((eventTitlePart e.title).2 + 25 + 20 + 15 + 10)

/-- Name contribution of `score_speaker`: `(points, extra max)`.  A stripped
name longer than 3 characters earns 35, and a multi-word name adds 5 to both
the score and `max_score`. -/
def speakerNamePart (n : Option String) : ℚ × ℚ :=
  match n with
  | none => (0, 0)
  | some s =>
    if s = "" then (0, 0)
    else
      let ns := pyStrip s
      if 3 < ns.data.length then
        if 2 ≤ (pyWords ns).length then (40, 5) else (35, 0)
      else (0, 0)

def speakerTitlePart (t : Option String) : ℚ :=
  match t with
  | none => 0
  | some s =>
    if s = "" then 0 else if 3 < (pyStrip s).data.length then 25 else 0

def speakerCompanyPart (c : Option String) : ℚ :=
  match c with
  | none => 0
  | some s =>
    if s = "" then 0 else if 2 < (pyStrip s).data.length then 20 else 0

def speakerBioPart (b : Option String) : ℚ :=
  match b with
  | none => 0
  | some s =>
    if s = "" then 0
    else
      if 20 < (pyStrip s).data.length then 10
      else if 5 < (pyStrip s).data.length then 5 else 0

/-- One social link contributes 3.33 points when present and matched by the
URL regular expression (the regex engine is the abstract `urlMatch`). -/
def speakerLinkPart (urlMatch : String → Bool) (u : Option String) : ℚ :=
  match u with
  | none => 0
  | some s => if s = "" then 0 else if urlMatch s then 333/100 else 0

def speakerSocialPart (urlMatch : String → Bool) (sp : ExtractedSpeaker) : ℚ :=
  min (speakerLinkPart urlMatch sp.linkedin_url
        + speakerLinkPart urlMatch sp.twitter_url
        + speakerLinkPart urlMatch sp.website_url) 10

/-- `ConfidenceScorer.score_speaker` (validation_service.py lines 64-109).
`urlMatch` stands for `self.url_pattern.match` (the `re` library). -/
def score_speaker (urlMatch : String → Bool) (sp : ExtractedSpeaker) : ℚ :=
  min (((speakerNamePart sp.name).1 + speakerTitlePart sp.title
        + speakerCompanyPart sp.company + speakerBioPart sp.bio
        + speakerSocialPart urlMatch sp)
       / (100 + (speakerNamePart sp.name).2)) 1

def companyNamePart (n : Option String) : ℚ :=
  match n with
  | none => 0
  | some s =>
    if s = "" then 0 else if 2 < (pyStrip s).data.length then 40 else 0

def companyUrlPart (urlMatch : String → Bool) (u : Option String) : ℚ :=
  match u with
  | none => 0
  | some s => if s = "" then 0 else if urlMatch s then 25 else 0

def companyDescPart (d i : Option String) : ℚ :=
  (if pyTruthy d then 10 else 0) + (if pyTruthy i then 10 else 0)

def companyRelPart (r : Option String) : ℚ :=
  match r with
  | none => 0
  | some s =>
    if s = "" then 0
    else
      if ["sponsor", "host", "partner", "venue"].contains (pyLower s)
      then 15 else 0

/-- `ConfidenceScorer.score_company` (validation_service.py lines 111-142). -/
def score_company (urlMatch : String → Bool) (c : ExtractedCompany) : ℚ :=
  min ((companyNamePart c.name + companyUrlPart urlMatch c.website_url
        + companyDescPart c.description c.industry
        + companyRelPart c.relationship_type) / 100) 1

/-! ## JSON values and `json.loads`
(used by ExtractionService.parse_openai_response, extraction_service.py) -/

inductive Json where
  | null
  | jbool (b : Bool)
  | jnum (lexeme : String)
  | jstr (s : String)
  | jarr (items : List Json)
  | jobj (fields : List (String × Json))

/-- JSON whitespace skipped by the Python decoder: space, tab, newline,
carriage return. -/
def jsonWs (c : Char) : Bool := c = ' ' || c = '\t' || c = '\n' || c = '\r'

def skipJsonWs (cs : List Char) : List Char := cs.dropWhile jsonWs

def hexDigitVal (c : Char) : Option Nat :=
  if '0' ≤ c ∧ c ≤ '9' then some (c.toNat - 48)
  else if 'a' ≤ c ∧ c ≤ 'f' then some (c.toNat - 87)
  else if 'A' ≤ c ∧ c ≤ 'F' then some (c.toNat - 55)
  else none

def jsonEscapeChar : Char → Option Char
  | '\"' => some '\"'
  | '\\' => some '\\'
  | '/' => some '/'
  | 'b' => some '\x08'
  | 'f' => some '\x0c'
  | 'n' => some '\n'
  | 'r' => some '\r'
  | 't' => some '\t'
  | _ => none

/-- Strict JSON string body (after the opening quote): literal characters,
escape sequences, `\uXXXX`; raw control characters are rejected. -/
def parseStrChars : List Char → Option (List Char × List Char)
  | [] => none
  | '\"' :: rest => some ([], rest)
  | '\\' :: rest =>
    match rest with
    | [] => none
    | 'u' :: a :: b :: c :: d :: rest2 =>
      match hexDigitVal a, hexDigitVal b, hexDigitVal c, hexDigitVal d with
      | some x1, some x2, some x3, some x4 =>
        (fun p => (Char.ofNat (((x1 * 16 + x2) * 16 + x3) * 16 + x4) :: p.1, p.2))
          <$> parseStrChars rest2
      | _, _, _, _ => none
    | e :: rest2 =>
      match jsonEscapeChar e with
      | some c => (fun p => (c :: p.1, p.2)) <$> parseStrChars rest2
      | none => none
  | c :: rest =>
    if c.toNat < 32 then none
    else (fun p => (c :: p.1, p.2)) <$> parseStrChars rest

def takeDigits (cs : List Char) : List Char × List Char :=
  (cs.takeWhile Char.isDigit, cs.dropWhile Char.isDigit)

/-- Integer part of the JSON number grammar: `0` or `[1-9][0-9]*`. -/
def parseIntPart : List Char → Option (List Char × List Char)
  | [] => none
  | c :: rest =>
    if c = '0' then some (['0'], rest)
    else if c.isDigit then
      let p := takeDigits rest
      some (c :: p.1, p.2)
    else none

/-- Optional fraction group `(\.\d+)?`. -/
def parseFracPart : List Char → List Char × List Char
  | '.' :: rest =>
    let p := takeDigits rest
    if p.1.isEmpty then ([], '.' :: rest) else ('.' :: p.1, p.2)
  | cs => ([], cs)

/-- Optional exponent group `([eE][-+]?\d+)?`. -/
def parseExpPart : List Char → List Char × List Char
  | [] => ([], [])
  | c :: rest =>
    if c = 'e' ∨ c = 'E' then
      match rest with
      | s :: rest2 =>
        if s = '+' ∨ s = '-' then
          let p := takeDigits rest2
          if p.1.isEmpty then ([], c :: rest) else (c :: s :: p.1, p.2)
        else
          let p := takeDigits rest
          if p.1.isEmpty then ([], c :: rest) else (c :: p.1, p.2)
      | [] => ([], [c])
    else ([], c :: rest)

def parseNumberToken (cs : List Char) : Option (List Char × List Char) :=
  match cs with
  | '-' :: rest =>
    match parseIntPart rest with
    | some (ip, rest2) =>
      let f := parseFracPart rest2
      let e := parseExpPart f.2
      some ('-' :: (ip ++ f.1 ++ e.1), e.2)
    | none => none
  | _ =>
    match parseIntPart cs with
    | some (ip, rest2) =>
      let f := parseFracPart rest2
      let e := parseExpPart f.2
      some (ip ++ f.1 ++ e.1, e.2)
    | none => none

def jsonLookup : List (String × Json) → String → Option Json
  | [], _ => none
  | (k, v) :: rest, key => if k = key then some v else jsonLookup rest key

/-- Building a Python dict from decoded members: a repeated key overwrites
the value at the first occurrence's position, otherwise append. -/
def objInsert (fields : List (String × Json)) (k : String) (v : Json) :
    List (String × Json) :=
  if (jsonLookup fields k).isSome then
    fields.map (fun p => if p.1 = k then (k, v) else p)
  else fields ++ [(k, v)]

mutual

/-- One JSON value (leading whitespace allowed), returning the rest of the
input.  Fuel only bounds recursion depth; `lengthOfInput + 1` never runs out
because every recursive call consumes at least one character first. -/
def parseJsonVal : Nat → List Char → Option (Json × List Char)
  | 0, _ => none
  | fuel + 1, cs =>
    match skipJsonWs cs with
    | '\x7b' :: rest =>
      match skipJsonWs rest with
      | '\x7d' :: rest2 => some (Json.jobj [], rest2)
      | rest2 => parseJsonObjBody fuel rest2 []
    | '[' :: rest =>
      match skipJsonWs rest with
      | ']' :: rest2 => some (Json.jarr [], rest2)
      | rest2 => parseJsonArrBody fuel rest2 []
    | '\"' :: rest =>
      (fun p => (Json.jstr (String.mk p.1), p.2)) <$> parseStrChars rest
    | 't' :: 'r' :: 'u' :: 'e' :: rest => some (Json.jbool true, rest)
    | 'f' :: 'a' :: 'l' :: 's' :: 'e' :: rest => some (Json.jbool false, rest)
    | 'n' :: 'u' :: 'l' :: 'l' :: rest => some (Json.null, rest)
    | 'N' :: 'a' :: 'N' :: rest => some (Json.jnum "NaN", rest)
    | 'I' :: 'n' :: 'f' :: 'i' :: 'n' :: 'i' :: 't' :: 'y' :: rest =>
      some (Json.jnum "Infinity", rest)
    | '-' :: 'I' :: 'n' :: 'f' :: 'i' :: 'n' :: 'i' :: 't' :: 'y' :: rest =>
      some (Json.jnum "-Infinity", rest)
    | cs2 => (fun p => (Json.jnum (String.mk p.1), p.2)) <$> parseNumberToken cs2

/-- Object members, positioned at a property name. -/
def parseJsonObjBody : Nat → List Char → List (String × Json) →
    Option (Json × List Char)
  | 0, _, _ => none
  | fuel + 1, cs, acc =>
    match cs with
    | '\"' :: rest =>
      match parseStrChars rest with
      | none => none
      | some (keyChars, rest2) =>
        match skipJsonWs rest2 with
        | ':' :: rest3 =>
          match parseJsonVal fuel rest3 with
          | none => none
          | some (v, rest4) =>
            let acc2 := objInsert acc (String.mk keyChars) v
            match skipJsonWs rest4 with
            | ',' :: rest5 => parseJsonObjBody fuel (skipJsonWs rest5) acc2
            | '\x7d' :: rest5 => some (Json.jobj acc2, rest5)
            | _ => none
        | _ => none
    | _ => none

/-- Array items, positioned at a value. -/
def parseJsonArrBody : Nat → List Char → List Json → Option (Json × List Char)
  | 0, _, _ => none
  | fuel + 1, cs, acc =>
    match parseJsonVal fuel cs with
    | none => none
    | some (v, rest) =>
      match skipJsonWs rest with
      | ',' :: rest2 => parseJsonArrBody fuel rest2 (acc ++ [v])
      | ']' :: rest2 => some (Json.jarr (acc ++ [v]), rest2)
      | _ => none

end

/-- Python `json.loads`: one value, then only trailing whitespace. -/
def jsonLoads (s : String) : Option Json :=
  match parseJsonVal (s.data.length + 1) s.data with
  | some (v, rest) => if skipJsonWs rest = [] then some v else none
  | none => none

/-! ## ExtractionService.fix_json_response
(extraction_service.py lines 277-295) -/

/-- `re.sub(r'```json\s*', '', content)`: every occurrence of the fence
opener and the whitespace after it is removed.  Fuel bounds the recursion
(length + 1 always suffices: each step consumes at least one character). -/
def removeCodeFenceJson : Nat → List Char → List Char
  | 0, cs => cs
  | fuel + 1, cs =>
    match cs with
    | [] => []
    | '\x60' :: '\x60' :: '\x60' :: 'j' :: 's' :: 'o' :: 'n' :: rest =>
      removeCodeFenceJson fuel (rest.dropWhile pySpace)
    | c :: rest => c :: removeCodeFenceJson fuel rest

/-- `re.sub(r'```\s*$', '', content)`: a closing fence followed only by
whitespace at the end of the text is removed. -/
def removeTrailingFence (cs : List Char) : List Char :=
  match (cs.reverse.dropWhile pySpace) with
  | '\x60' :: '\x60' :: '\x60' :: rest => rest.reverse
  | _ => cs

/-- `re.sub(r',(\s*[}\]])', r'\1', content)`: one left-to-right pass
dropping a comma that directly precedes (up to whitespace) a closing
bracket; scanning resumes after the bracket. -/
def removeTrailingCommas : Nat → List Char → List Char
  | 0, cs => cs
  | fuel + 1, cs =>
    match cs with
    | [] => []
    | c :: rest =>
      if c = ',' then
        match rest.dropWhile pySpace with
        | b :: rest3 =>
          if b = '\x7d' ∨ b = ']' then
            rest.takeWhile pySpace ++ b :: removeTrailingCommas fuel rest3
          else ',' :: removeTrailingCommas fuel rest
        | [] => ',' :: removeTrailingCommas fuel rest
      else c :: removeTrailingCommas fuel rest

/-- `ExtractionService.fix_json_response` (extraction_service.py 277-295):
strip fences, drop trailing commas, strip whitespace, and wrap in braces
when they are missing. -/
def fix_json_response (content : String) : String :=
  let cs1 := removeCodeFenceJson (content.data.length + 1) content.data
  let cs2 := removeTrailingFence cs1
  let cs3 := removeTrailingCommas (cs2.length + 1) cs2
  let cs4 := pyStripList cs3
  let cs5 := if cs4.head? = some '\x7b' then cs4 else '\x7b' :: cs4
  let cs6 := if cs5.getLast? = some '\x7d' then cs5 else cs5 ++ ['\x7d']
  String.mk cs6

/-! ## ExtractionService.parse_openai_response
(extraction_service.py lines 248-275) -/

def requiredKeys : List String :=
  ["events", "speakers", "companies", "topics", "metadata"]

def defaultForKey (k : String) : Json :=
  if k = "metadata" then Json.jobj [] else Json.jarr []

/-- One iteration of the required-keys loop: `if key not in data:
data[key] = default` (dict insertion appends a fresh key). -/
def fillStep (fs : List (String × Json)) (k : String) : List (String × Json) :=
  if (jsonLookup fs k).isSome then fs else fs ++ [(k, defaultForKey k)]

/-- The `for key in required_keys: if key not in data: data[key] = ...`
loop on a decoded object. -/
def fillMissing (fields : List (String × Json)) : List (String × Json) :=
  requiredKeys.foldl fillStep fields

def jsonIsStrEq (j : Json) (k : String) : Bool :=
  match j with
  | Json.jstr s => s = k
  | _ => false

/-- The required-keys loop on an arbitrary decoded value, `none` modelling a
raised `TypeError`: on a dict it inserts missing keys; on a list, `key in
data` is element membership and the first missing key makes the assignment
raise; on a string, `key in data` is substring search and any missing key
makes the assignment raise; on numbers and constants `in` itself raises. -/
def fillRequired : Json → Option Json
  | Json.jobj fields => some (Json.jobj (fillMissing fields))
  | Json.jarr items =>
    if requiredKeys.all (fun k => items.any (fun j => jsonIsStrEq j k))
    then some (Json.jarr items) else none
  | Json.jstr s =>
    if requiredKeys.all (fun k => containsSub s k)
    then some (Json.jstr s) else none
  | _ => none

/-- The empty structure returned when repair also fails. -/
def emptyFailedJson : Json :=
  Json.jobj
    [("events", Json.jarr []), ("speakers", Json.jarr []),
     ("companies", Json.jarr []), ("topics", Json.jarr []),
     ("metadata", Json.jobj [("extraction_quality", Json.jstr "failed")])]

/-- `ExtractionService.parse_openai_response` (extraction_service.py
248-275).  `none` models an uncaught exception: only `json.JSONDecodeError`
is caught around the first decode, so a `TypeError` from the required-keys
loop propagates; the second decode is guarded by a bare `except` and falls
back to `emptyFailedJson`, without running the required-keys loop. -/
def parse_openai_response (text : String) : Option Json :=
  match jsonLoads text with
  | some data => fillRequired data
  | none =>
    match jsonLoads (fix_json_response text) with
    | some d => some d
    | none => some emptyFailedJson

/-! ## ExtractedData and ConfidenceScorer.validate_and_filter
(validation_service.py lines 164-200) -/

structure ExtractedData where
  events : List ExtractedEvent := []
  speakers : List ExtractedSpeaker := []
  companies : List ExtractedCompany := []
  topics : List String := []
  metadata : Json := Json.jobj []

def withEventScore (e : ExtractedEvent) (c : ℚ) : ExtractedEvent :=
  { e with confidence_score := some c }

def withSpeakerScore (s : ExtractedSpeaker) (c : ℚ) : ExtractedSpeaker :=
  { s with confidence_score := some c }

def withCompanyScore (co : ExtractedCompany) (c : ℚ) : ExtractedCompany :=
  { co with confidence_score := some c }

/-- `ConfidenceScorer.validate_and_filter`: keep each entity whose score
reaches the threshold, writing the score into it; topics and metadata are
copied through. -/
def validate_and_filter (urlMatch : String → Bool) (d : ExtractedData)
    (confidence_threshold : ℚ) : ExtractedData :=
  { events := d.events.filterMap (fun e =>
      if confidence_threshold ≤ score_event e
      then some (withEventScore e (score_event e)) else none),
    speakers := d.speakers.filterMap (fun s =>
      if confidence_threshold ≤ score_speaker urlMatch s
      then some (withSpeakerScore s (score_speaker urlMatch s)) else none),
    companies := d.companies.filterMap (fun co =>
      if confidence_threshold ≤ score_company urlMatch co
      then some (withCompanyScore co (score_company urlMatch co)) else none),
    topics := d.topics,
    metadata := d.metadata }

/-! ## MemoryCache (cache_service.py lines 24-75)

State: entry map (association list standing for the dict), recency list
`_access_order` (head = least recently accessed), capacity.  Time is the
event-loop clock passed in as `now`. -/

structure CacheEntry (V : Type) where
  value : V
  ttl : Option Int
  created_at : ℚ
deriving DecidableEq

structure MemoryCache (V : Type) where
  cache : List (String × CacheEntry V)
  access_order : List String
  max_size : Nat
deriving DecidableEq

def lookupC {V : Type} : List (String × CacheEntry V) → String → Option (CacheEntry V)
  | [], _ => none
  | (k, e) :: rest, key => if k = key then some e else lookupC rest key

def eraseC {V : Type} (c : List (String × CacheEntry V)) (key : String) :
    List (String × CacheEntry V) :=
  c.filter (fun p => p.1 != key)

/-- Python `self._cache[key] = entry`: overwrite in place, else append. -/
def setC {V : Type} (c : List (String × CacheEntry V)) (key : String)
    (e : CacheEntry V) : List (String × CacheEntry V) :=
  if (lookupC c key).isSome then
    c.map (fun p => if p.1 = key then (key, e) else p)
  else c ++ [(key, e)]

/-- `cache_entry.get('ttl') and now - cache_entry['created_at'] >
cache_entry['ttl']`: a `None` or zero ttl is falsy and never expires. -/
def entryExpired {V : Type} (e : CacheEntry V) (now : ℚ) : Bool :=
  match e.ttl with
  | none => false
  | some t => t ≠ 0 && (t : ℚ) < now - e.created_at

/-- `MemoryCache._remove_key` (guarded deletions, so total). -/
def MemoryCache.removeKey {V : Type} (s : MemoryCache V) (key : String) :
    MemoryCache V :=
  { s with cache := eraseC s.cache key, access_order := s.access_order.erase key }

/-- `MemoryCache.get` (cache_service.py 31-45): expired entries are removed
lazily; a hit moves the key to the most-recent end of the access order.
The unguarded `self._access_order.remove(key)` on the hit path assumes the
key is in the access order, which holds on well-formed states; `List.erase`
is its total counterpart. -/
def MemoryCache.get {V : Type} (s : MemoryCache V) (now : ℚ) (key : String) :
    Option V × MemoryCache V :=
  match lookupC s.cache key with
  | none => (none, s)
  | some e =>
    if entryExpired e now then (none, s.removeKey key)
    else (some e.value,
          { s with access_order := s.access_order.erase key ++ [key] })

/-- `MemoryCache.set` (cache_service.py 47-63): at capacity a new key first
evicts the head of the access order (`self._access_order.pop(0)`); `none`
models the `IndexError` of popping from an empty list. -/
def MemoryCache.set {V : Type} (s : MemoryCache V) (now : ℚ) (key : String)
    (v : V) (ttl : Option Int) : Option (MemoryCache V) :=
  let write : MemoryCache V → MemoryCache V := fun s1 =>
    { s1 with
      cache := setC s1.cache key ⟨v, ttl, now⟩,
      access_order :=
        if key ∈ s1.access_order then s1.access_order
        else s1.access_order ++ [key] }
  if s.max_size ≤ s.cache.length ∧ (lookupC s.cache key).isNone then
    match s.access_order with
    | [] => none
    | oldest :: rest =>
      some (write { s with cache := eraseC s.cache oldest, access_order := rest })
  else some (write s)

/-- `MemoryCache.delete` (cache_service.py 65-67). -/
def MemoryCache.delete {V : Type} (s : MemoryCache V) (key : String) :
    Bool × MemoryCache V :=
  if (lookupC s.cache key).isSome then (true, s.removeKey key) else (false, s)

def emptyMemoryCache (V : Type) (maxSize : Nat) : MemoryCache V :=
  ⟨[], [], maxSize⟩

/-- States reachable from a fresh `MemoryCache(max_size)` with
`max_size ≥ 1` (the constructor default is 1000) by any sequence of
`get`/`set`/`delete` calls. -/
inductive ReachableCache {V : Type} : MemoryCache V → Prop
  | init (n : Nat) (h : 1 ≤ n) : ReachableCache (emptyMemoryCache V n)
  | getStep (s : MemoryCache V) (now : ℚ) (key : String) :
      ReachableCache s → ReachableCache (s.get now key).2
  | setStep (s : MemoryCache V) (now : ℚ) (key : String) (v : V)
      (ttl : Option Int) (s2 : MemoryCache V) :
      ReachableCache s → s.set now key v ttl = some s2 → ReachableCache s2
  | deleteStep (s : MemoryCache V) (key : String) :
      ReachableCache s → ReachableCache (s.delete key).2

def cacheKeys {V : Type} (s : MemoryCache V) : List String :=
  s.cache.map Prod.fst

/-- Consistency invariant of the store: no duplicate keys, the entry map and
the access order hold the same keys, and the size is within capacity. -/
def CacheWF {V : Type} (s : MemoryCache V) : Prop :=
  s.access_order.Nodup ∧ (cacheKeys s).Nodup ∧
  (∀ k, k ∈ cacheKeys s ↔ k ∈ s.access_order) ∧
  s.cache.length ≤ s.max_size ∧ 1 ≤ s.max_size

/-! ## CacheService layer (cache_service.py lines 115-194) -/

/-- `ttl or self.ttl`: a `None` or zero requested ttl falls back to the
configured default. -/
def svcTtl (ttl : Option Int) (dflt : Int) : Int :=
  match ttl with
  | none => dflt
  | some t => if t = 0 then dflt else t

/-- `CacheService.set` over the in-process backend: backend exceptions are
caught and reported as `False` with the state unchanged (the `IndexError`
fires before any mutation). -/
def cacheServiceSet {V : Type} (dflt : Int) (s : MemoryCache V) (now : ℚ)
    (key : String) (v : V) (ttl : Option Int) : Bool × MemoryCache V :=
  match s.set now key v (some (svcTtl ttl dflt)) with
  | some s2 => (true, s2)
  | none => (false, s)

/-! ## OpenAIService retry behaviour (openai_service.py lines 13-74) -/

/-- The exception classes an attempt can raise out of the OpenAI client. -/
inductive OpenAIErr where
  | rateLimitError
  | apiTimeoutError
  | apiConnectionError
  | internalServerError
  | otherError
deriving DecidableEq

/-- `retry_if_exception_type((RateLimitError, APITimeoutError,
APIConnectionError, InternalServerError))` from `get_openai_retry_config`. -/
def transientRetry : OpenAIErr → Bool
  | .otherError => false
  | _ => true

/-- What the decorated function body can raise: either a raw OpenAI client
exception, or the `OpenAIServiceError` the body wraps every failure in. -/
inductive RaisedErr where
  | openaiRaw (e : OpenAIErr)
  | openAIServiceError (wrapped : OpenAIErr)
deriving DecidableEq

/-- The tenacity predicate applied to what the body actually raises:
`OpenAIServiceError` is not one of the retryable classes. -/
def retryableRaised : RaisedErr → Bool
  | .openaiRaw e => transientRetry e
  | .openAIServiceError _ => false

/-- The `try/except` body of `OpenAIService.extract_content` (lines 40-74):
a successful attempt returns its value; ANY exception is re-raised as
`OpenAIServiceError`. -/
def extractContentBody {α : Type} (attempt : Except OpenAIErr α) :
    Except RaisedErr α :=
  match attempt with
  | .ok a => .ok a
  | .error e => .error (.openAIServiceError e)

/-- The tenacity loop with `stop_after_attempt` and `reraise=True`: attempt
`k` runs; a failure matching the retry predicate with attempts remaining is
retried after the backoff sleep, any other failure is re-raised. -/
def tenacityGo {α : Type} (call : Nat → Except RaisedErr α) :
    Nat → Nat → Except RaisedErr α
  | k, 0 =>
    match call k with
    | .ok a => .ok a
    | .error e => .error e
  | k, left + 1 =>
    match call k with
    | .ok a => .ok a
    | .error e =>
      if retryableRaised e then tenacityGo call (k + 1) left else .error e

/-- `@retry(**get_openai_retry_config())` around a call, with
`stop_after_attempt(maxAttempts)`. -/
def tenacityRetryCall {α : Type} (maxAttempts : Nat)
    (call : Nat → Except RaisedErr α) : Except RaisedErr α :=
  tenacityGo call 1 (maxAttempts - 1)

/-- `OpenAIService.extract_content` as observed by callers: the decorated
wrapper around the exception-wrapping body, `attempts k` being the outcome
of the k-th provider call. -/
def openai_extract_content {α : Type} (attempts : Nat → Except OpenAIErr α) :
    Except RaisedErr α :=
  tenacityRetryCall 3 (fun k => extractContentBody (attempts k))

/-! ## ExtractionService.extract_batch (extraction_service.py 309-350) -/

structure BatchRequest where
  html_content : String := ""
  url : String
  extraction_type : String := "full"
  use_cache : Bool := true
  confidence_threshold : ℚ := 7/10
deriving DecidableEq

/-- The per-item `ExtractionResult` fields `extract_batch` reads. -/
structure ExtResultData where
  extracted_data : ExtractedData
  confidence_scores : List (String × ℚ)
  processing_time : ℚ
  cache_hit : Bool

/-- Python `int()` truncation toward zero, for `int(x * 1000)`. -/
def pyIntTrunc (q : ℚ) : Int := if 0 ≤ q then ⌊q⌋ else -⌊-q⌋

inductive BatchItemResult where
  | success (extraction_data : ExtractedData)
      (confidence_scores : List (String × ℚ)) (processing_time_ms : Int)
      (cache_hit : Bool) (url : String)
  | failure (error : String) (url : String)

/-- `ExtractionService.extract_batch`: `asyncio.gather(*tasks,
return_exceptions=True)` yields one outcome per request in request order
(`completed`); each exception becomes a failure record with that request's
URL, each result a success record. -/
def extract_batch (requests : List BatchRequest)
    (completed : List (Except String ExtResultData)) : List BatchItemResult :=
  (completed.zip requests).map (fun p =>
    match p.1 with
    | .error e => .failure e p.2.url
    | .ok r =>
      .success r.extracted_data r.confidence_scores
        (pyIntTrunc (r.processing_time * 1000)) r.cache_hit p.2.url)

/-! ## CacheService.generate_cache_key (cache_service.py 125-133)

`sha256hex` stands for `hashlib.sha256(...).hexdigest()` and `normalize`
for `_normalize_for_cache` (BeautifulSoup-based); both are external
collaborators, abstracted as functions. -/

/-- Python slicing `s[:n]` by code points. -/
def pyTake (s : String) (n : Nat) : String := String.mk (s.data.take n)

/-- `CacheService.generate_cache_key`: digest of the normalized content,
truncated to 16 hex characters, namespaced by extraction type. -/
def generate_cache_key (sha256hex : String → String) (normalize : String → String)
    (html_content : String) (extraction_type : String) : String :=
  "extraction:" ++ extraction_type ++ ":"
    ++ pyTake (sha256hex (normalize html_content)) 16
/-! ## Shared lemmas -/

/-- A valid `%Y-%m-%d` date string is non-empty (hence truthy). -/
theorem validYMD_ne_empty {d : String} (h : validYMD d = true) : d ≠ "" := by
  intro he
  rw [he] at h
  exact absurd h (by decide)

/-- `scoreOfParts` is monotone in the score for a fixed maximum. -/
theorem scoreOfParts_mono {s1 s2 m : ℚ} (h : s1 ≤ s2) :
    scoreOfParts s1 m ≤ scoreOfParts s2 m := by
  unfold scoreOfParts
  split_ifs with hm
  · exact min_le_min (by gcongr) le_rfl
  · exact le_rfl

/-! ## Claim theorems -/

/-- C1: the claim says a transient failure (for instance a rate limit) is
retried with backoff and the call succeeds when a later attempt within the
3-attempt budget succeeds.  The code contradicts its own retry
configuration: the `except Exception` block inside `extract_content`
rewraps every raw client exception as `OpenAIServiceError` before
tenacity's `retry_if_exception_type` predicate sees it, so no retry ever
fires.  First conjunct: with attempt 1 raising `RateLimitError` and attempt
2 succeeding, the decorated call surfaces a provider error after a single
attempt.  Second conjunct: the same attempt sequence without the rewrapping
(the behaviour `get_openai_retry_config` is written for) retries and
succeeds. -/
theorem C1_retry_defeated_by_wrapper :
    openai_extract_content
        (fun k => if k = 1 then Except.error OpenAIErr.rateLimitError
                  else Except.ok (0 : Nat))
      = Except.error (RaisedErr.openAIServiceError OpenAIErr.rateLimitError)
    ∧ tenacityRetryCall 3
        (fun k => ((if k = 1 then Except.error OpenAIErr.rateLimitError
                    else Except.ok (0 : Nat)).mapError RaisedErr.openaiRaw))
      = Except.ok 0 :=
  ⟨rfl, rfl⟩

/-- C2, counterexample: the spec's example event — title "AI Summit 2024",
date "2024-06-15", location "SF", a description longer than 50 characters —
does NOT score at least 0.8: the location "SF" has 2 characters and the
location block requires more than 3, so the score is 75/105 = 5/7 < 0.8. -/
theorem C2_counterexample :
    50 < (pyStrip "A comprehensive gathering of AI researchers and industry leaders.").data.length
    ∧ ¬ ((8 : ℚ)/10 ≤ score_event
        { title := some "AI Summit 2024", date := some "2024-06-15",
          location := some "SF",
          description := some "A comprehensive gathering of AI researchers and industry leaders." }) := by
  refine ⟨by decide, ?_⟩
  have h : score_event
      { title := some "AI Summit 2024", date := some "2024-06-15",
        location := some "SF",
        description := some "A comprehensive gathering of AI researchers and industry leaders." }
      = 5/7 := by
    show scoreOfParts
        ((eventTitlePart (some "AI Summit 2024")).1 + eventDatePart (some "2024-06-15")
          + eventLocPart (some "SF")
          + eventDescPart (some "A comprehensive gathering of AI researchers and industry leaders.")
          + ((countTruthy [none, none, none, none] : ℚ) / 4 * 10))
        ((eventTitlePart (some "AI Summit 2024")).2 + 25 + 20 + 15 + 10) = 5/7
    rw [show eventTitlePart (some "AI Summit 2024") = (35, 35) from by decide,
        show eventDatePart (some "2024-06-15") = 25 from by decide,
        show eventLocPart (some "SF") = 0 from by decide,
        show eventDescPart (some "A comprehensive gathering of AI researchers and industry leaders.") = 15 from by decide,
        show countTruthy [none, none, none, none] = 0 from rfl]
    norm_num [scoreOfParts, min_def]
  rw [h]
  norm_num

/-- C2 (amended): the spec's example event scores exactly 5/7 ≈ 0.714 — at
least 0.7 but below 0.8, because the two-character location "SF" is too
short for the location weight (which needs more than 3 characters) — and
this holds for every description whose stripped length exceeds 50; the bare
`{title: "Event"}` event scores 0, well under 0.5 (its five-character title
fails the strict `len > 5` check). -/
theorem C2_scoring_example (dsc : String)
    (hd : 50 < (pyStrip dsc).data.length) :
    score_event { title := some "AI Summit 2024", date := some "2024-06-15",
                  location := some "SF", description := some dsc } = 5/7
    ∧ (7 : ℚ)/10 ≤ 5/7 ∧ ¬ ((8 : ℚ)/10 ≤ 5/7)
    ∧ score_event { title := some "Event" } = 0 ∧ (0 : ℚ) < 1/2 := by
  have hne : dsc ≠ "" := by
    intro h
    rw [h] at hd
    exact absurd hd (by decide)
  have hds : eventDescPart (some dsc) = 15 := by
    simp only [eventDescPart]
    rw [if_neg hne, if_pos hd]
  refine ⟨?_, by norm_num, by norm_num, ?_, by norm_num⟩
  · show scoreOfParts
        ((eventTitlePart (some "AI Summit 2024")).1 + eventDatePart (some "2024-06-15")
          + eventLocPart (some "SF") + eventDescPart (some dsc)
          + ((countTruthy [none, none, none, none] : ℚ) / 4 * 10))
        ((eventTitlePart (some "AI Summit 2024")).2 + 25 + 20 + 15 + 10) = 5/7
    rw [show eventTitlePart (some "AI Summit 2024") = (35, 35) from by decide,
        show eventDatePart (some "2024-06-15") = 25 from by decide,
        show eventLocPart (some "SF") = 0 from by decide,
        hds,
        show countTruthy [none, none, none, none] = 0 from rfl]
    norm_num [scoreOfParts, min_def]
  · show scoreOfParts
        ((eventTitlePart (some "Event")).1 + eventDatePart none + eventLocPart none
          + eventDescPart none + ((countTruthy [none, none, none, none] : ℚ) / 4 * 10))
        ((eventTitlePart (some "Event")).2 + 25 + 20 + 15 + 10) = 0
    rw [show eventTitlePart (some "Event") = (0, 30) from by decide,
        show countTruthy [none, none, none, none] = 0 from rfl]
    norm_num [scoreOfParts, min_def, eventDatePart, eventLocPart, eventDescPart]

/-- C2 witness: a concrete description longer than 50 characters. -/
theorem C2_scoring_example_witness :
    50 < (pyStrip "A comprehensive gathering of AI researchers and industry leaders.").data.length
    ∧ score_event { title := some "AI Summit 2024", date := some "2024-06-15",
                    location := some "SF",
                    description := some "A comprehensive gathering of AI researchers and industry leaders." } = 5/7 :=
  ⟨by decide,
   (C2_scoring_example "A comprehensive gathering of AI researchers and industry leaders."
      (by decide)).1⟩

/-- C9: adding a date valid in `%Y-%m-%d` format to an event that had no
date never lowers its score: a valid date is non-empty and earns the full
25 date points while `max_score` is unchanged. -/
theorem C9_date_monotone (e : ExtractedEvent) (he : e.date = none)
    (d : String) (hd : validYMD d = true) :
    score_event e ≤ score_event { e with date := some d } := by
  obtain ⟨t, dsc, dt, tm, loc, et, cap, pr, ru, cs⟩ := e
  have he2 : dt = none := he
  subst he2
  have h25 : eventDatePart (some d) = 25 := by
    simp only [eventDatePart]
    rw [if_neg (validYMD_ne_empty hd), if_pos hd]
  have hb : eventBonusPart
      { title := t, description := dsc, date := some d, time := tm, location := loc,
        event_type := et, capacity := cap, price := pr, registration_url := ru,
        confidence_score := cs }
      = eventBonusPart
      { title := t, description := dsc, date := none, time := tm, location := loc,
        event_type := et, capacity := cap, price := pr, registration_url := ru,
        confidence_score := cs } := rfl
  show scoreOfParts
      ((eventTitlePart t).1 + eventDatePart none + eventLocPart loc
        + eventDescPart dsc + eventBonusPart
          { title := t, description := dsc, date := none, time := tm, location := loc,
            event_type := et, capacity := cap, price := pr, registration_url := ru,
            confidence_score := cs })
      ((eventTitlePart t).2 + 25 + 20 + 15 + 10)
    ≤ scoreOfParts
      ((eventTitlePart t).1 + eventDatePart (some d) + eventLocPart loc
        + eventDescPart dsc + eventBonusPart
          { title := t, description := dsc, date := some d, time := tm, location := loc,
            event_type := et, capacity := cap, price := pr, registration_url := ru,
            confidence_score := cs })
      ((eventTitlePart t).2 + 25 + 20 + 15 + 10)
  rw [h25, hb, show eventDatePart none = (0 : ℚ) from rfl]
  exact scoreOfParts_mono (by linarith)

/-- C9 witness: the empty event gains its score when the valid date
2024-06-15 is added. -/
theorem C9_date_monotone_witness :
    validYMD "2024-06-15" = true
    ∧ score_event {} ≤ score_event { ({} : ExtractedEvent) with date := some "2024-06-15" } :=
  ⟨by decide, C9_date_monotone {} rfl "2024-06-15" (by decide)⟩

/-! ## Lemmas about the required-keys fill -/

theorem jsonLookup_append_isSome {fs : List (String × Json)} {k : String}
    (h : (jsonLookup fs k).isSome) (l : List (String × Json)) :
    (jsonLookup (fs ++ l) k).isSome = true := by
  induction fs with
  | nil => simp [jsonLookup] at h
  | cons p rest ih =>
    obtain ⟨k1, v1⟩ := p
    simp only [jsonLookup, List.cons_append]
    split_ifs with hk
    · rfl
    · simp only [jsonLookup, hk, if_neg] at h
      exact ih h

theorem jsonLookup_append_self (fs : List (String × Json)) (k : String) (v : Json) :
    (jsonLookup (fs ++ [(k, v)]) k).isSome = true := by
  induction fs with
  | nil => simp [jsonLookup]
  | cons p rest ih =>
    obtain ⟨k1, v1⟩ := p
    simp only [jsonLookup, List.cons_append]
    split_ifs with hk
    · rfl
    · exact ih

theorem jsonLookup_fillStep_mono {fs : List (String × Json)} {k : String}
    (h : (jsonLookup fs k).isSome) (k2 : String) :
    (jsonLookup (fillStep fs k2) k).isSome = true := by
  unfold fillStep
  split_ifs with h2
  · exact h
  · exact jsonLookup_append_isSome h _

theorem jsonLookup_fillStep_self (fs : List (String × Json)) (k : String) :
    (jsonLookup (fillStep fs k) k).isSome = true := by
  unfold fillStep
  split_ifs with h2
  · exact h2
  · exact jsonLookup_append_self fs k _

theorem jsonLookup_fillFold_mono {ks : List String} {fs : List (String × Json)}
    {k : String} (h : (jsonLookup fs k).isSome) :
    (jsonLookup (ks.foldl fillStep fs) k).isSome = true := by
  induction ks generalizing fs with
  | nil => exact h
  | cons k1 rest ih => exact ih (jsonLookup_fillStep_mono h k1)

theorem jsonLookup_fillFold {ks : List String} {fs : List (String × Json)}
    {k : String} (hk : k ∈ ks) :
    (jsonLookup (ks.foldl fillStep fs) k).isSome = true := by
  induction ks generalizing fs with
  | nil => cases hk
  | cons k1 rest ih =>
    rw [List.foldl_cons]
    rcases List.mem_cons.mp hk with h | h
    · subst h
      exact jsonLookup_fillFold_mono (jsonLookup_fillStep_self fs k)
    · exact ih h

/-- C3, counterexample: the raw text `{"events": [],}` fails the direct
decode (trailing comma), is repaired to `{"events": []}`, and is returned
through the repair path WITHOUT the missing-field defaults — the returned
dataset has no `speakers`, `companies`, `topics` or `metadata` field,
refuting "in every returned dataset, each of the five top-level fields is
present". -/
theorem C3_counterexample :
    parse_openai_response "\x7b\"events\": [],\x7d"
      = some (Json.jobj [("events", Json.jarr [])])
    ∧ jsonLookup [("events", Json.jarr [])] "speakers" = none :=
  ⟨rfl, rfl⟩

/-- C3 (amended): when even the repaired text fails to decode,
`parse_openai_response` returns (rather than raises) the empty dataset
whose metadata flags extraction quality as failed.  The five top-level
fields are guaranteed present only on the direct-decode path: when the raw
text decodes directly to a JSON object, every missing required field is
filled with its empty default.  A dataset returned through the repair path
keeps exactly the repaired document's own keys (see the counterexample). -/
theorem C3_parse_guarantees (text : String) :
    (jsonLoads text = none → jsonLoads (fix_json_response text) = none →
      parse_openai_response text = some emptyFailedJson)
    ∧ (∀ fields, jsonLoads text = some (Json.jobj fields) →
        parse_openai_response text = some (Json.jobj (fillMissing fields))
        ∧ ∀ k, k ∈ requiredKeys → (jsonLookup (fillMissing fields) k).isSome) := by
  constructor
  · intro h1 h2
    unfold parse_openai_response
    rw [h1, h2]
  · intro fields h
    constructor
    · unfold parse_openai_response
      rw [h]
      rfl
    · intro k hk
      exact jsonLookup_fillFold hk

/-- C3 amended-claim witness: "hello" fails both decodes and yields the
empty failed dataset; `{}` decodes directly to an object and all five
required keys are present after filling. -/
theorem C3_parse_guarantees_witness :
    parse_openai_response "hello" = some emptyFailedJson
    ∧ (parse_openai_response "\x7b\x7d" = some (Json.jobj (fillMissing []))
        ∧ ∀ k, k ∈ requiredKeys → (jsonLookup (fillMissing []) k).isSome) :=
  ⟨(C3_parse_guarantees "hello").1 rfl rfl,
   (C3_parse_guarantees "\x7b\x7d").2 [] rfl⟩

/-- C6: for every dataset and threshold in [0,1]: an entity scoring exactly
the threshold is retained, every retained entity comes from an input entity
scoring at least the threshold (so anything strictly below is dropped) and
carries its computed score as `confidence_score`, and topics and metadata
pass through unchanged.  Holds for each of the three entity kinds. -/
theorem C6_filter_boundary (urlMatch : String → Bool) (d : ExtractedData)
    (t : ℚ) (h0 : 0 ≤ t) (h1 : t ≤ 1) :
    (validate_and_filter urlMatch d t).topics = d.topics
    ∧ (validate_and_filter urlMatch d t).metadata = d.metadata
    ∧ (∀ e ∈ d.events, score_event e = t →
        withEventScore e t ∈ (validate_and_filter urlMatch d t).events)
    ∧ (∀ e2 ∈ (validate_and_filter urlMatch d t).events, ∃ e ∈ d.events,
        t ≤ score_event e ∧ e2 = withEventScore e (score_event e))
    ∧ (∀ s ∈ d.speakers, score_speaker urlMatch s = t →
        withSpeakerScore s t ∈ (validate_and_filter urlMatch d t).speakers)
    ∧ (∀ s2 ∈ (validate_and_filter urlMatch d t).speakers, ∃ s ∈ d.speakers,
        t ≤ score_speaker urlMatch s ∧ s2 = withSpeakerScore s (score_speaker urlMatch s))
    ∧ (∀ c ∈ d.companies, score_company urlMatch c = t →
        withCompanyScore c t ∈ (validate_and_filter urlMatch d t).companies)
    ∧ (∀ c2 ∈ (validate_and_filter urlMatch d t).companies, ∃ c ∈ d.companies,
        t ≤ score_company urlMatch c ∧ c2 = withCompanyScore c (score_company urlMatch c)) := by
  refine ⟨rfl, rfl, ?_, ?_, ?_, ?_, ?_, ?_⟩
  · intro e he hs
    simp only [validate_and_filter, List.mem_filterMap]
    exact ⟨e, he, by rw [hs, if_pos le_rfl]⟩
  · intro e2 h2
    simp only [validate_and_filter, List.mem_filterMap] at h2
    obtain ⟨e, he, hf⟩ := h2
    split_ifs at hf with hc
    exact ⟨e, he, hc, (Option.some_injective _ hf).symm⟩
  · intro s hs hsc
    simp only [validate_and_filter, List.mem_filterMap]
    exact ⟨s, hs, by rw [hsc, if_pos le_rfl]⟩
  · intro s2 h2
    simp only [validate_and_filter, List.mem_filterMap] at h2
    obtain ⟨s, hs, hf⟩ := h2
    split_ifs at hf with hc
    exact ⟨s, hs, hc, (Option.some_injective _ hf).symm⟩
  · intro c hc hcs
    simp only [validate_and_filter, List.mem_filterMap]
    exact ⟨c, hc, by rw [hcs, if_pos le_rfl]⟩
  · intro c2 h2
    simp only [validate_and_filter, List.mem_filterMap] at h2
    obtain ⟨c, hc, hf⟩ := h2
    split_ifs at hf with hcc
    exact ⟨c, hc, hcc, (Option.some_injective _ hf).symm⟩

/-- C6 witness: one empty event, a URL matcher that rejects everything,
threshold 0 (every score is at least 0, so the event is retained). -/
theorem C6_filter_boundary_witness :
    (validate_and_filter (fun _ => false)
        { events := [{}], topics := ["ai"] } 0).topics
      = ({ events := [{}], topics := ["ai"] } : ExtractedData).topics
    ∧ (∀ e2 ∈ (validate_and_filter (fun _ => false)
          { events := [{}], topics := ["ai"] } 0).events,
        ∃ e ∈ ({ events := [{}], topics := ["ai"] } : ExtractedData).events,
          (0:ℚ) ≤ score_event e ∧ e2 = withEventScore e (score_event e)) :=
  ⟨(C6_filter_boundary (fun _ => false) { events := [{}], topics := ["ai"] } 0
      le_rfl (by norm_num)).1,
   (C6_filter_boundary (fun _ => false) { events := [{}], topics := ["ai"] } 0
      le_rfl (by norm_num)).2.2.2.1⟩

/-- Indexing a zip: the pair exists exactly when both components do. -/
theorem zip_getElem? {α β : Type} (as : List α) (bs : List β) (i : Nat) :
    (as.zip bs)[i]? = (as[i]?).bind (fun a => (bs[i]?).map (fun b => (a, b))) := by
  induction as generalizing bs i with
  | nil => simp
  | cons a as ih =>
    cases bs with
    | nil => simp
    | cons b bs =>
      cases i with
      | zero => simp
      | succ n => simpa using ih bs n

/-- C7: batch extraction over N inputs returns exactly N entries in input
order; the entry for an input whose single-item operation raised is a
failure record with that item's error and source URL, and the entry for an
input whose operation succeeded is a success record carrying its extracted
data (and scores, timing, cache flag) intact. -/
theorem C7_batch_isolation (requests : List BatchRequest)
    (completed : List (Except String ExtResultData))
    (hlen : completed.length = requests.length) :
    (extract_batch requests completed).length = requests.length
    ∧ (∀ (i : Nat) (req : BatchRequest) (e : String), requests[i]? = some req →
        completed[i]? = some (Except.error e) →
        (extract_batch requests completed)[i]?
          = some (BatchItemResult.failure e req.url))
    ∧ (∀ (i : Nat) (req : BatchRequest) (r : ExtResultData), requests[i]? = some req →
        completed[i]? = some (Except.ok r) →
        (extract_batch requests completed)[i]?
          = some (BatchItemResult.success r.extracted_data r.confidence_scores
              (pyIntTrunc (r.processing_time * 1000)) r.cache_hit req.url)) := by
  refine ⟨?_, ?_, ?_⟩
  · simp [extract_batch, hlen]
  · intro i req e hreq hcomp
    show (List.map _ (completed.zip requests))[i]? = _
    rw [List.getElem?_map, zip_getElem?, hcomp, hreq]
    rfl
  · intro i req r hreq hcomp
    show (List.map _ (completed.zip requests))[i]? = _
    rw [List.getElem?_map, zip_getElem?, hcomp, hreq]
    rfl

/-- C7 witness: two requests, the second one failing. -/
theorem C7_batch_isolation_witness :
    (extract_batch
        [{ url := "u1" }, { url := "u2" }]
        [Except.ok ⟨{}, [], 0, false⟩, Except.error "boom"]).length = 2
    ∧ (extract_batch
        [{ url := "u1" }, { url := "u2" }]
        [Except.ok ⟨{}, [], 0, false⟩, Except.error "boom"])[1]?
      = some (BatchItemResult.failure "boom" "u2") :=
  ⟨(C7_batch_isolation [{ url := "u1" }, { url := "u2" }]
      [Except.ok ⟨{}, [], 0, false⟩, Except.error "boom"] rfl).1,
   (C7_batch_isolation [{ url := "u1" }, { url := "u2" }]
      [Except.ok ⟨{}, [], 0, false⟩, Except.error "boom"] rfl).2.1
      1 { url := "u2" } "boom" rfl rfl⟩

theorem strData_append (a b : String) : (a ++ b).data = a.data ++ b.data := by
  cases a; cases b; rfl

theorem strExt {a b : String} (h : a.data = b.data) : a = b := by
  cases a; cases b
  simp only at h
  rw [h]

/-- C8: two calls whose HTML normalizes to equal text with the same mode
produce the same key; different modes produce different keys even for
identical content (the digest prefix has the fixed length 16 and contains
no separator, so equal keys force equal modes); and the key has the shape
`extraction:{mode}:{digest_prefix}`.  `sha256hex` is any digest whose hex
form has 64 characters, as SHA-256's does. -/
theorem C8_cache_key (sha256hex normalize : String → String)
    (hlen : ∀ s, (sha256hex s).length = 64)
    (c1 c2 m1 m2 : String) :
    (normalize c1 = normalize c2 → m1 = m2 →
      generate_cache_key sha256hex normalize c1 m1
        = generate_cache_key sha256hex normalize c2 m2)
    ∧ (m1 ≠ m2 →
      generate_cache_key sha256hex normalize c1 m1
        ≠ generate_cache_key sha256hex normalize c2 m2)
    ∧ (∃ dig : String, dig.length = 16
        ∧ generate_cache_key sha256hex normalize c1 m1
            = "extraction:" ++ m1 ++ ":" ++ dig) := by
  have hdig : ∀ c : String, (pyTake (sha256hex (normalize c)) 16).data.length = 16 := by
    intro c
    have h64 : (sha256hex (normalize c)).data.length = 64 := hlen (normalize c)
    simp [pyTake, h64]
  refine ⟨?_, ?_, ?_⟩
  · intro h1 h2
    unfold generate_cache_key
    rw [h1, h2]
  · intro hm heq
    apply hm
    have hd := congrArg String.data heq
    unfold generate_cache_key at hd
    simp only [strData_append, List.append_assoc] at hd
    replace hd := List.append_cancel_left hd
    have hsuffix :
        (":".data ++ (pyTake (sha256hex (normalize c1)) 16).data).length
          = (":".data ++ (pyTake (sha256hex (normalize c2)) 16).data).length := by
      simp [hdig]
    exact strExt (List.append_inj' hd hsuffix).1
  · exact ⟨pyTake (sha256hex (normalize c1)) 16, hdig c1, rfl⟩

/-- C8 witness: a fixed-length digest stub, identity normalizer, identical
content, modes `full` versus `events_only`. -/
theorem C8_cache_key_witness :
    generate_cache_key (fun _ => String.mk (List.replicate 64 'a')) (fun s => s)
        "<p>x</p>" "full"
      ≠ generate_cache_key (fun _ => String.mk (List.replicate 64 'a')) (fun s => s)
        "<p>x</p>" "events_only" :=
  (C8_cache_key (fun _ => String.mk (List.replicate 64 'a')) (fun s => s)
      (fun s => rfl) "<p>x</p>" "<p>x</p>" "full" "events_only").2.1
    (by decide)

/-! ## Association-list lemmas for the cache store -/

theorem lookupC_none_iff {V : Type} (c : List (String × CacheEntry V)) (k : String) :
    lookupC c k = none ↔ k ∉ c.map Prod.fst := by
  induction c with
  | nil => simp [lookupC]
  | cons p rest ih =>
    obtain ⟨k1, e1⟩ := p
    simp only [lookupC, List.map_cons, List.mem_cons]
    split_ifs with h
    · subst h
      simp
    · simp only [ih]
      constructor
      · intro hn hor
        rcases hor with h1 | h1
        · exact h h1.symm
        · exact hn h1
      · intro hn h1
        exact hn (Or.inr h1)

theorem mem_of_lookupC_some {V : Type} {c : List (String × CacheEntry V)}
    {k : String} {e : CacheEntry V} (h : lookupC c k = some e) :
    k ∈ c.map Prod.fst := by
  by_contra hk
  rw [← lookupC_none_iff] at hk
  rw [h] at hk
  cases hk

theorem keys_eraseC {V : Type} (c : List (String × CacheEntry V)) (k : String) :
    (eraseC c k).map Prod.fst = (c.map Prod.fst).filter (fun x => x != k) := by
  induction c with
  | nil => rfl
  | cons p rest ih =>
    obtain ⟨k1, e1⟩ := p
    simp only [eraseC, List.filter_cons, List.map_cons]
    by_cases h : (k1 != k) = true
    · rw [if_pos h, if_pos h, List.map_cons]
      rw [← ih]
      rfl
    · rw [if_neg h, if_neg h]
      rw [← ih]
      rfl

theorem mem_keys_eraseC {V : Type} (c : List (String × CacheEntry V))
    (k x : String) :
    x ∈ (eraseC c k).map Prod.fst ↔ x ∈ c.map Prod.fst ∧ x ≠ k := by
  rw [keys_eraseC]
  simp [List.mem_filter]

theorem lookupC_eraseC_self {V : Type} (c : List (String × CacheEntry V))
    (k : String) : lookupC (eraseC c k) k = none := by
  rw [lookupC_none_iff, mem_keys_eraseC]
  simp

theorem eraseC_of_not_mem {V : Type} {c : List (String × CacheEntry V)}
    {k : String} (h : k ∉ c.map Prod.fst) : eraseC c k = c := by
  induction c with
  | nil => rfl
  | cons p rest ih =>
    obtain ⟨k1, e1⟩ := p
    simp only [List.map_cons, List.mem_cons] at h
    push_neg at h
    simp only [eraseC, List.filter_cons]
    rw [if_pos (by simpa using Ne.symm h.1)]
    have := ih h.2
    simp only [eraseC] at this
    rw [this]

theorem length_eraseC_of_mem {V : Type} {c : List (String × CacheEntry V)}
    {k : String} (hnd : (c.map Prod.fst).Nodup) (hm : k ∈ c.map Prod.fst) :
    (eraseC c k).length + 1 = c.length := by
  induction c with
  | nil => cases hm
  | cons p rest ih =>
    obtain ⟨k1, e1⟩ := p
    simp only [List.map_cons, List.nodup_cons] at hnd
    simp only [List.map_cons, List.mem_cons] at hm
    simp only [eraseC, List.filter_cons]
    rcases hm with h | h
    · subst h
      rw [if_neg (by simp)]
      have : eraseC rest k = rest := eraseC_of_not_mem hnd.1
      simp only [eraseC] at this
      rw [this, List.length_cons]
    · have hne : k1 ≠ k := by
        intro hcontra
        subst hcontra
        exact hnd.1 h
      rw [if_pos (by simpa using hne)]
      simp only [List.length_cons]
      have := ih hnd.2 h
      simp only [eraseC] at this
      omega

theorem lookupC_append {V : Type} (c d : List (String × CacheEntry V)) (k : String) :
    lookupC (c ++ d) k
      = match lookupC c k with
        | some e => some e
        | none => lookupC d k := by
  induction c with
  | nil => simp [lookupC]
  | cons p rest ih =>
    obtain ⟨k1, e1⟩ := p
    simp only [List.cons_append, lookupC]
    split_ifs with h
    · rfl
    · exact ih

theorem lookupC_map_overwrite {V : Type} (c : List (String × CacheEntry V))
    (k : String) (e : CacheEntry V) :
    lookupC (c.map (fun p => if p.1 = k then (k, e) else p)) k
      = (lookupC c k).map (fun _ => e) := by
  induction c with
  | nil => rfl
  | cons p rest ih =>
    obtain ⟨k1, e1⟩ := p
    by_cases hk : k1 = k
    · subst hk
      simp only [List.map_cons]
      simp [lookupC]
    · simp only [List.map_cons]
      rw [if_neg hk]
      simp only [lookupC, if_neg hk]
      exact ih

theorem lookupC_setC_self {V : Type} (c : List (String × CacheEntry V))
    (k : String) (e : CacheEntry V) : lookupC (setC c k e) k = some e := by
  unfold setC
  split_ifs with h
  · rw [lookupC_map_overwrite]
    cases hl : lookupC c k with
    | none => rw [hl] at h; cases h
    | some e2 => simp
  · rw [lookupC_append]
    have hnone : lookupC c k = none := by
      cases hl : lookupC c k with
      | none => rfl
      | some e2 => rw [hl] at h; simp at h
    rw [hnone]
    simp [lookupC]

theorem keys_setC_present {V : Type} {c : List (String × CacheEntry V)}
    {k : String} (h : (lookupC c k).isSome) (e : CacheEntry V) :
    (setC c k e).map Prod.fst = c.map Prod.fst := by
  unfold setC
  rw [if_pos h, List.map_map]
  apply List.map_congr_left
  intro p hp
  by_cases hk : p.1 = k
  · simp [Function.comp, hk]
  · simp [Function.comp, hk]

theorem keys_setC_absent {V : Type} {c : List (String × CacheEntry V)}
    {k : String} (h : ¬ (lookupC c k).isSome) (e : CacheEntry V) :
    (setC c k e).map Prod.fst = c.map Prod.fst ++ [k] := by
  unfold setC
  rw [if_neg h, List.map_append]
  rfl

theorem length_setC_present {V : Type} {c : List (String × CacheEntry V)}
    {k : String} (h : (lookupC c k).isSome) (e : CacheEntry V) :
    (setC c k e).length = c.length := by
  unfold setC
  rw [if_pos h, List.length_map]

theorem length_setC_absent {V : Type} {c : List (String × CacheEntry V)}
    {k : String} (h : ¬ (lookupC c k).isSome) (e : CacheEntry V) :
    (setC c k e).length = c.length + 1 := by
  unfold setC
  rw [if_neg h, List.length_append]
  rfl

theorem nodup_append_singleton {l : List String} {a : String}
    (h : l.Nodup) (ha : a ∉ l) : (l ++ [a]).Nodup := by
  rw [List.nodup_append]
  refine ⟨h, List.nodup_singleton a, ?_⟩
  intro x hx hxa
  rw [List.mem_singleton] at hxa
  subst hxa
  exact ha hx

/-! ## The MemoryCache operations preserve the invariant -/

theorem wf_removeKey {V : Type} {s : MemoryCache V} (h : CacheWF s) (k : String) :
    CacheWF (s.removeKey k) := by
  obtain ⟨hao, hkn, hmem, hlen, hmax⟩ := h
  refine ⟨hao.erase k, ?_, ?_, ?_, hmax⟩
  · show ((eraseC s.cache k).map Prod.fst).Nodup
    rw [keys_eraseC]
    exact hkn.filter _
  · intro x
    show x ∈ (eraseC s.cache k).map Prod.fst ↔ x ∈ s.access_order.erase k
    rw [mem_keys_eraseC, hao.mem_erase_iff, ← hmem x]
    tauto
  · show (eraseC s.cache k).length ≤ s.max_size
    exact le_trans (List.length_filter_le _ _) hlen

theorem wf_get {V : Type} {s : MemoryCache V} (h : CacheWF s) (now : ℚ)
    (k : String) : CacheWF (s.get now k).2 := by
  unfold MemoryCache.get
  cases hl : lookupC s.cache k with
  | none => exact h
  | some e =>
    obtain ⟨hao, hkn, hmem, hlen, hmax⟩ := h
    have hk : k ∈ s.access_order := (hmem k).mp (mem_of_lookupC_some hl)
    dsimp only
    split_ifs with hexp
    · exact wf_removeKey ⟨hao, hkn, hmem, hlen, hmax⟩ k
    · refine ⟨?_, hkn, ?_, hlen, hmax⟩
      · apply nodup_append_singleton (hao.erase k)
        rw [hao.mem_erase_iff]
        simp
      · intro x
        show x ∈ cacheKeys s ↔ x ∈ s.access_order.erase k ++ [k]
        rw [hmem x, List.mem_append, hao.mem_erase_iff, List.mem_singleton]
        by_cases hx : x = k
        · subst hx
          simp [hk]
        · simp [hx]

theorem wf_delete {V : Type} {s : MemoryCache V} (h : CacheWF s) (k : String) :
    CacheWF (s.delete k).2 := by
  unfold MemoryCache.delete
  split_ifs with hl
  · exact wf_removeKey h k
  · exact h

theorem wf_set {V : Type} {s : MemoryCache V} (h : CacheWF s) {now : ℚ}
    {k : String} {v : V} {ttl : Option Int} {s2 : MemoryCache V}
    (hs : s.set now k v ttl = some s2) : CacheWF s2 := by
  obtain ⟨hao, hkn, hmem, hlen, hmax⟩ := h
  simp only [MemoryCache.set] at hs
  split_ifs at hs with hcond hin
  · -- eviction branch: at capacity and the key is new
    obtain ⟨hcap, hnewN⟩ := hcond
    have hnew : lookupC s.cache k = none := Option.isNone_iff_eq_none.mp hnewN
    have hknotin : k ∉ s.access_order := by
      rw [← hmem k]
      exact (lookupC_none_iff s.cache k).mp hnew
    cases hA : s.access_order with
    | nil =>
      rw [hA] at hs
      dsimp only at hs
      cases hs
    | cons oldest rest =>
      rw [hA] at hs
      dsimp only at hs
      have holdk : oldest ∈ cacheKeys s := by
        rw [hmem oldest, hA]
        exact List.mem_cons_self oldest rest
      have hAn : (oldest :: rest).Nodup := hA ▸ hao
      have holdrest : oldest ∉ rest := (List.nodup_cons.mp hAn).1
      have hrestnd : rest.Nodup := (List.nodup_cons.mp hAn).2
      have hknotrest : k ∉ rest := by
        intro hcontra
        apply hknotin
        rw [hA]
        exact List.mem_cons_of_mem _ hcontra
      have hkerase : ¬ (lookupC (eraseC s.cache oldest) k).isSome := by
        rw [Option.isSome_iff_exists]
        rintro ⟨e2, he2⟩
        have := mem_of_lookupC_some he2
        rw [mem_keys_eraseC] at this
        exact (lookupC_none_iff s.cache k).mp hnew this.1
      rw [if_neg hknotrest] at hs
      cases hs
      refine ⟨?_, ?_, ?_, ?_, hmax⟩
      · exact nodup_append_singleton hrestnd hknotrest
      · show ((setC (eraseC s.cache oldest) k ⟨v, ttl, now⟩).map Prod.fst).Nodup
        rw [keys_setC_absent hkerase]
        apply nodup_append_singleton
        · rw [keys_eraseC]
          exact hkn.filter _
        · rw [mem_keys_eraseC]
          intro hcontra
          exact (lookupC_none_iff s.cache k).mp hnew hcontra.1
      · intro x
        show x ∈ (setC (eraseC s.cache oldest) k ⟨v, ttl, now⟩).map Prod.fst
          ↔ x ∈ rest ++ [k]
        rw [keys_setC_absent hkerase, List.mem_append, List.mem_append,
            List.mem_singleton, mem_keys_eraseC]
        have hx : x ∈ s.cache.map Prod.fst ↔ x ∈ oldest :: rest := by
          rw [← hA]
          exact hmem x
        rw [hx, List.mem_cons]
        constructor
        · rintro (⟨h1 | h1, hxo⟩ | hxk)
          · exact absurd h1 hxo
          · exact Or.inl h1
          · exact Or.inr hxk
        · rintro (hxr | hxk)
          · exact Or.inl ⟨Or.inr hxr, fun hcontra => holdrest (hcontra ▸ hxr)⟩
          · exact Or.inr hxk
      · show (setC (eraseC s.cache oldest) k ⟨v, ttl, now⟩).length ≤ s.max_size
        rw [length_setC_absent hkerase]
        have := length_eraseC_of_mem hkn holdk
        omega
  · -- key already in the access order: in-place overwrite, nothing evicted
    have hpres : (lookupC s.cache k).isSome := by
      cases hl : lookupC s.cache k with
      | none => exact absurd ((hmem k).mpr hin) ((lookupC_none_iff s.cache k).mp hl)
      | some e2 => rfl
    cases hs
    refine ⟨hao, ?_, ?_, ?_, hmax⟩
    · show ((setC s.cache k ⟨v, ttl, now⟩).map Prod.fst).Nodup
      rw [keys_setC_present hpres]
      exact hkn
    · intro x
      show x ∈ (setC s.cache k ⟨v, ttl, now⟩).map Prod.fst ↔ x ∈ s.access_order
      rw [keys_setC_present hpres]
      exact hmem x
    · show (setC s.cache k ⟨v, ttl, now⟩).length ≤ s.max_size
      rw [length_setC_present hpres]
      exact hlen
  · -- fresh key below capacity: append to both structures
    have hnew : lookupC s.cache k = none := by
      cases hl : lookupC s.cache k with
      | none => rfl
      | some e2 => exact absurd ((hmem k).mp (mem_of_lookupC_some hl)) hin
    have hpres : ¬ (lookupC s.cache k).isSome := by
      rw [hnew]
      simp
    have hroom : s.cache.length < s.max_size := by
      by_contra hge
      push_neg at hge
      exact hcond ⟨hge, Option.isNone_iff_eq_none.mpr hnew⟩
    cases hs
    refine ⟨?_, ?_, ?_, ?_, hmax⟩
    · exact nodup_append_singleton hao hin
    · show ((setC s.cache k ⟨v, ttl, now⟩).map Prod.fst).Nodup
      rw [keys_setC_absent hpres]
      apply nodup_append_singleton hkn
      exact (lookupC_none_iff s.cache k).mp hnew
    · intro x
      show x ∈ (setC s.cache k ⟨v, ttl, now⟩).map Prod.fst
        ↔ x ∈ s.access_order ++ [k]
      rw [keys_setC_absent hpres, List.mem_append, List.mem_append,
          List.mem_singleton]
      exact or_congr (hmem x) Iff.rfl
    · show (setC s.cache k ⟨v, ttl, now⟩).length ≤ s.max_size
      rw [length_setC_absent hpres]
      omega

/-- Every state reachable from a fresh store with positive capacity is
well-formed. -/
theorem reachable_wf {V : Type} {s : MemoryCache V} (h : ReachableCache s) :
    CacheWF s := by
  induction h with
  | init n hn =>
    exact ⟨List.nodup_nil, List.nodup_nil, by simp [cacheKeys, emptyMemoryCache],
           by simp [emptyMemoryCache], hn⟩
  | getStep s now k hr ih => exact wf_get ih now k
  | setStep s now k v ttl s2 hr hset ih => exact wf_set ih hset
  | deleteStep s k hr ih => exact wf_delete ih k

/-- C4: in any state reached by a sequence of operations that fills the
store to capacity: (a) `set` of an absent key succeeds and evicts exactly
the head of the access order — the least-recently-accessed key — and only
it: the new key is present, the LRU key is gone, and every other key
survives; (b) `get` of a present, unexpired key returns its value and moves
the key to the most-recent end of the access order; (c) `set` of an
already-present key evicts nothing: the key set is unchanged. -/
theorem C4_lru_eviction {V : Type} (s : MemoryCache V) (hr : ReachableCache s)
    (hcap : s.cache.length = s.max_size) :
    (∀ (key : String) (v : V) (ttl : Option Int) (now : ℚ) (lru : String)
        (rest : List String),
      lookupC s.cache key = none → s.access_order = lru :: rest →
      ∃ s2, s.set now key v ttl = some s2
        ∧ key ∈ cacheKeys s2
        ∧ lru ∉ cacheKeys s2
        ∧ ∀ k2, k2 ∈ cacheKeys s2 ↔ (k2 = key ∨ (k2 ∈ cacheKeys s ∧ k2 ≠ lru)))
    ∧ (∀ (key : String) (e : CacheEntry V) (now : ℚ),
        lookupC s.cache key = some e → entryExpired e now = false →
        (s.get now key).1 = some e.value
        ∧ (s.get now key).2.access_order = s.access_order.erase key ++ [key])
    ∧ (∀ (key : String) (e : CacheEntry V) (v : V) (ttl : Option Int) (now : ℚ),
        lookupC s.cache key = some e →
        ∃ s2, s.set now key v ttl = some s2 ∧ cacheKeys s2 = cacheKeys s) := by
  obtain ⟨hao, hkn, hmem, hlen, hmax⟩ := reachable_wf hr
  refine ⟨?_, ?_, ?_⟩
  · intro key v ttl now lru rest hnone hA
    have hknotin : key ∉ s.access_order := by
      rw [← hmem key]
      exact (lookupC_none_iff s.cache key).mp hnone
    have hknotrest : key ∉ rest := by
      intro hcontra
      apply hknotin
      rw [hA]
      exact List.mem_cons_of_mem _ hcontra
    have hlru_mem : lru ∈ s.access_order := by
      rw [hA]
      exact List.mem_cons_self lru rest
    have hlru_ne : lru ≠ key := by
      intro hcontra
      exact hknotin (hcontra ▸ hlru_mem)
    have hkerase : ¬ (lookupC (eraseC s.cache lru) key).isSome := by
      rw [Option.isSome_iff_exists]
      rintro ⟨e2, he2⟩
      have := mem_of_lookupC_some he2
      rw [mem_keys_eraseC] at this
      exact (lookupC_none_iff s.cache key).mp hnone this.1
    have hset : s.set now key v ttl
        = some ⟨setC (eraseC s.cache lru) key ⟨v, ttl, now⟩,
                rest ++ [key], s.max_size⟩ := by
      simp only [MemoryCache.set]
      rw [if_pos ⟨le_of_eq hcap.symm, by rw [hnone]; rfl⟩, hA]
      dsimp only
      rw [if_neg hknotrest]
    refine ⟨_, hset, ?_, ?_, ?_⟩
    · show key ∈ (setC (eraseC s.cache lru) key ⟨v, ttl, now⟩).map Prod.fst
      rw [keys_setC_absent hkerase, List.mem_append, List.mem_singleton]
      exact Or.inr rfl
    · show lru ∉ (setC (eraseC s.cache lru) key ⟨v, ttl, now⟩).map Prod.fst
      rw [keys_setC_absent hkerase, List.mem_append, List.mem_singleton,
          mem_keys_eraseC]
      rintro (⟨_, hcontra⟩ | hcontra)
      · exact hcontra rfl
      · exact hlru_ne hcontra
    · intro k2
      show k2 ∈ (setC (eraseC s.cache lru) key ⟨v, ttl, now⟩).map Prod.fst
        ↔ k2 = key ∨ (k2 ∈ cacheKeys s ∧ k2 ≠ lru)
      rw [keys_setC_absent hkerase, List.mem_append, List.mem_singleton,
          mem_keys_eraseC]
      tauto
  · intro key e now hsome hexp
    have hget : s.get now key
        = (some e.value,
           { s with access_order := s.access_order.erase key ++ [key] }) := by
      simp only [MemoryCache.get, hsome]
      rw [if_neg (by rw [hexp]; simp)]
    rw [hget]
    exact ⟨rfl, rfl⟩
  · intro key e v ttl now hsome
    have hpres : (lookupC s.cache key).isSome := by
      rw [hsome]
      rfl
    have hkin : key ∈ s.access_order := (hmem key).mp (mem_of_lookupC_some hsome)
    have hnotcond : ¬ (s.max_size ≤ s.cache.length ∧ (lookupC s.cache key).isNone) := by
      rintro ⟨_, hN⟩
      rw [hsome] at hN
      simp at hN
    refine ⟨⟨setC s.cache key ⟨v, ttl, now⟩, s.access_order, s.max_size⟩, ?_, ?_⟩
    · simp only [MemoryCache.set]
      rw [if_neg hnotcond, if_pos hkin]
    · exact keys_setC_present hpres _

/-- C4 witness: fill a capacity-2 store with "a" then "b", then insert "c":
"a" (the least recently accessed) is evicted and only "a". -/
theorem C4_lru_eviction_witness :
    ∃ s3, MemoryCache.set
        (⟨[("a", ⟨1, none, 0⟩), ("b", ⟨2, none, 0⟩)], ["a", "b"], 2⟩ : MemoryCache Nat)
        1 "c" 3 none = some s3
      ∧ "c" ∈ cacheKeys s3
      ∧ "a" ∉ cacheKeys s3
      ∧ ∀ k2, k2 ∈ cacheKeys s3 ↔ (k2 = "c"
          ∨ (k2 ∈ cacheKeys (⟨[("a", ⟨1, none, 0⟩), ("b", ⟨2, none, 0⟩)],
                ["a", "b"], 2⟩ : MemoryCache Nat) ∧ k2 ≠ "a")) := by
  have h1 : ReachableCache (⟨[("a", ⟨1, none, 0⟩)], ["a"], 2⟩ : MemoryCache Nat) :=
    ReachableCache.setStep (emptyMemoryCache Nat 2) 0 "a" 1 none _
      (ReachableCache.init 2 (by norm_num)) rfl
  have h2 : ReachableCache
      (⟨[("a", ⟨1, none, 0⟩), ("b", ⟨2, none, 0⟩)], ["a", "b"], 2⟩ : MemoryCache Nat) :=
    ReachableCache.setStep _ 0 "b" 2 none _ h1 rfl
  exact (C4_lru_eviction _ h2 rfl).1 "c" 3 none 1 "a" ["b"] rfl rfl

/-- Reading back an entry that was just written with an unexpired ttl. -/
theorem get_after_write {V : Type} (c : List (String × CacheEntry V))
    (ao : List String) (ms : Nat) (key : String) (e : CacheEntry V) (now : ℚ)
    (hexp : entryExpired e now = false) :
    ((⟨setC c key e, ao, ms⟩ : MemoryCache V).get now key).1 = some e.value := by
  simp only [MemoryCache.get, lookupC_setC_self, hexp]
  rfl

/-- C5 (amended): `set(k, v, ttl)` followed immediately by `get(k)` returns
`v` for a ttl that is absent or non-negative (a negative ttl expires at
once); and an entry whose positive ttl has been exceeded (now − created >
ttl) is reported absent by `get` and removed from the store.  A ttl of zero
is falsy in the expiry check and never expires (claim C10). -/
theorem C5_ttl_roundtrip :
    (∀ (V : Type) (s s2 : MemoryCache V) (now : ℚ) (key : String) (v : V)
        (ttl : Option Int),
      (ttl = none ∨ ∃ t : Int, 0 ≤ t ∧ ttl = some t) →
      s.set now key v ttl = some s2 →
      (s2.get now key).1 = some v)
    ∧ (∀ (V : Type) (s : MemoryCache V) (key : String) (e : CacheEntry V)
        (t : Int) (now : ℚ),
      lookupC s.cache key = some e → e.ttl = some t → 0 < t →
      (t : ℚ) < now - e.created_at →
      (s.get now key).1 = none
        ∧ lookupC ((s.get now key).2.cache) key = none) := by
  constructor
  · intro V s s2 now key v ttl httl hset
    have hexp : entryExpired (⟨v, ttl, now⟩ : CacheEntry V) now = false := by
      rcases httl with h | ⟨t, ht0, ht⟩
      · subst h
        rfl
      · subst ht
        simp only [entryExpired, sub_self]
        have hnot : ¬ ((t : ℚ) < 0) := not_lt.mpr (by exact_mod_cast ht0)
        simp [hnot]
    simp only [MemoryCache.set] at hset
    split_ifs at hset with hcond hin
    · cases hA : s.access_order with
      | nil =>
        rw [hA] at hset
        dsimp only at hset
        cases hset
      | cons oldest rest =>
        rw [hA] at hset
        dsimp only at hset
        split_ifs at hset with h2
        · cases hset
          exact get_after_write _ _ _ _ _ _ hexp
        · cases hset
          exact get_after_write _ _ _ _ _ _ hexp
    · cases hset
      exact get_after_write _ _ _ _ _ _ hexp
    · cases hset
      exact get_after_write _ _ _ _ _ _ hexp
  · intro V s key e t now hsome httl ht hlt
    have hexp : entryExpired e now = true := by
      simp only [entryExpired, httl]
      simp [ht.ne', hlt]
    simp only [MemoryCache.get, hsome]
    rw [if_pos hexp]
    exact ⟨rfl, lookupC_eraseC_self s.cache key⟩

/-- C5 witness: an entry written with ttl 5 round-trips immediately, and
once 6 seconds have elapsed it is reported absent and removed. -/
theorem C5_ttl_roundtrip_witness :
    ((⟨[("k", ⟨42, some 5, 1⟩)], ["k"], 10⟩ : MemoryCache Nat).get 1 "k").1 = some 42
    ∧ (((⟨[("k", ⟨42, some 5, 1⟩)], ["k"], 10⟩ : MemoryCache Nat).get 7 "k").1 = none
        ∧ lookupC (((⟨[("k", ⟨42, some 5, 1⟩)], ["k"], 10⟩ : MemoryCache Nat).get 7 "k").2.cache) "k" = none) := by
  constructor
  · have hset : MemoryCache.set (⟨[], [], 10⟩ : MemoryCache Nat) 1 "k" 42 (some 5)
        = some ⟨[("k", ⟨42, some 5, 1⟩)], ["k"], 10⟩ := rfl
    exact C5_ttl_roundtrip.1 Nat ⟨[], [], 10⟩ _ 1 "k" 42 (some 5)
      (Or.inr ⟨5, by norm_num, rfl⟩) hset
  · exact C5_ttl_roundtrip.2 Nat ⟨[("k", ⟨42, some 5, 1⟩)], ["k"], 10⟩ "k"
      ⟨42, some 5, 1⟩ 5 7 rfl rfl (by norm_num) (by norm_num)

/-- C5, counterexample: the claim quantifies over every ttl.  First
conjunct: an entry stored with ttl 0 still returns its value after 2
seconds (more than its ttl) — `get` does not report absent, because a zero
ttl is falsy in the expiry test.  Second conjunct: `set` with ttl −1
followed immediately by `get` at the same instant returns absent, not the
stored value (now − created = 0 > −1 counts as expired). -/
theorem C5_counterexample :
    ((MemoryCache.set (⟨[], [], 10⟩ : MemoryCache Nat) 1 "k" 42 (some 0)).map
        (fun s1 => (s1.get 3 "k").1)) = some (some 42)
    ∧ ((MemoryCache.set (⟨[], [], 10⟩ : MemoryCache Nat) 1 "k" 42 (some (-1))).map
        (fun s1 => (s1.get 1 "k").1)) = some none := by
  refine ⟨rfl, ?_⟩
  have hset : MemoryCache.set (⟨[], [], 10⟩ : MemoryCache Nat) 1 "k" 42 (some (-1))
      = some ⟨[("k", ⟨42, some (-1), 1⟩)], ["k"], 10⟩ := rfl
  rw [hset, Option.map_some']
  have hexp : entryExpired (⟨42, some (-1), 1⟩ : CacheEntry Nat) 1 = true := by
    simp only [entryExpired]
    norm_num
  have hlk : lookupC [("k", (⟨42, some (-1), 1⟩ : CacheEntry Nat))] "k"
      = some ⟨42, some (-1), 1⟩ := rfl
  simp only [MemoryCache.get, hlk]
  rw [if_pos hexp]

/-- The freshly written entry is reported absent when its ttl has expired. -/
theorem get_after_write_expired {V : Type} (c : List (String × CacheEntry V))
    (ao : List String) (ms : Nat) (key : String) (e : CacheEntry V) (now2 : ℚ)
    (hexp : entryExpired e now2 = true) :
    ((⟨setC c key e, ao, ms⟩ : MemoryCache V).get now2 key).1 = none := by
  simp only [MemoryCache.get, lookupC_setC_self]
  rw [if_pos hexp]

/-- C10: an entry whose stored ttl is `None` or `0` never expires — `get`
returns its value at every clock value; `CacheService.set` substitutes the
configured default ttl for a requested ttl of `None` or `0` (`ttl or
self.ttl`), behaving exactly as a set with the default ttl; and therefore,
when the configured default is positive, an entry written through the
service with ttl `None`/`0` does expire once the default has elapsed — no
entry written through the service is non-expiring. -/
theorem C10_falsy_ttl_default :
    (∀ (V : Type) (s : MemoryCache V) (key : String) (e : CacheEntry V),
      lookupC s.cache key = some e → (e.ttl = none ∨ e.ttl = some 0) →
      ∀ now : ℚ, (s.get now key).1 = some e.value)
    ∧ (∀ (ttl : Option Int) (dflt : Int), (ttl = none ∨ ttl = some 0) →
        svcTtl ttl dflt = dflt)
    ∧ (∀ (V : Type) (dflt : Int) (s : MemoryCache V) (now : ℚ) (key : String)
        (v : V) (ttl : Option Int), (ttl = none ∨ ttl = some 0) →
        cacheServiceSet dflt s now key v ttl
          = cacheServiceSet dflt s now key v (some dflt))
    ∧ (∀ (V : Type) (dflt : Int) (s s2 : MemoryCache V) (now : ℚ) (key : String)
        (v : V) (ttl : Option Int), (ttl = none ∨ ttl = some 0) → 0 < dflt →
        MemoryCache.set s now key v (some (svcTtl ttl dflt)) = some s2 →
        ∀ now2 : ℚ, (dflt : ℚ) < now2 - now → (s2.get now2 key).1 = none) := by
  have hsv : ∀ (ttl : Option Int) (dflt : Int), (ttl = none ∨ ttl = some 0) →
      svcTtl ttl dflt = dflt := by
    intro ttl dflt h
    rcases h with h | h
    · subst h
      rfl
    · subst h
      simp [svcTtl]
  refine ⟨?_, hsv, ?_, ?_⟩
  · intro V s key e hsome httl now
    have hexp : entryExpired e now = false := by
      rcases httl with h | h
      · simp [entryExpired, h]
      · simp [entryExpired, h]
    simp only [MemoryCache.get, hsome]
    rw [if_neg (by rw [hexp]; simp)]
  · intro V dflt s now key v ttl httl
    have h2 : svcTtl (some dflt) dflt = dflt := by
      by_cases h : dflt = 0
      · simp [svcTtl, h]
      · simp [svcTtl, h]
    unfold cacheServiceSet
    rw [hsv ttl dflt httl, h2]
  · intro V dflt s s2 now key v ttl httl hd hset now2 hlt
    rw [hsv ttl dflt httl] at hset
    have hexp : entryExpired (⟨v, some dflt, now⟩ : CacheEntry V) now2 = true := by
      simp only [entryExpired]
      simp [hd.ne', hlt]
    simp only [MemoryCache.set] at hset
    split_ifs at hset with hcond hin
    · cases hA : s.access_order with
      | nil =>
        rw [hA] at hset
        dsimp only at hset
        cases hset
      | cons oldest rest =>
        rw [hA] at hset
        dsimp only at hset
        split_ifs at hset with h2
        · cases hset
          exact get_after_write_expired _ _ _ _ _ _ hexp
        · cases hset
          exact get_after_write_expired _ _ _ _ _ _ hexp
    · cases hset
      exact get_after_write_expired _ _ _ _ _ _ hexp
    · cases hset
      exact get_after_write_expired _ _ _ _ _ _ hexp

/-- C10 witness: a stored ttl-`None` entry survives to clock 1000; a stored
ttl-0 entry survives as well; `svcTtl` substitutes the default 3600; and an
entry written through the service path with ttl `None` and default 2 is
absent at clock 3. -/
theorem C10_falsy_ttl_default_witness :
    ((⟨[("k", ⟨7, none, 0⟩)], ["k"], 5⟩ : MemoryCache Nat).get 1000 "k").1 = some 7
    ∧ ((⟨[("z", ⟨9, some 0, 0⟩)], ["z"], 5⟩ : MemoryCache Nat).get 1000 "z").1 = some 9
    ∧ svcTtl none 3600 = 3600
    ∧ (((⟨[("k", ⟨7, some 2, 0⟩)], ["k"], 5⟩ : MemoryCache Nat).get 3 "k").1 = none) := by
  refine ⟨?_, ?_, ?_, ?_⟩
  · exact C10_falsy_ttl_default.1 Nat ⟨[("k", ⟨7, none, 0⟩)], ["k"], 5⟩ "k"
      ⟨7, none, 0⟩ rfl (Or.inl rfl) 1000
  · exact C10_falsy_ttl_default.1 Nat ⟨[("z", ⟨9, some 0, 0⟩)], ["z"], 5⟩ "z"
      ⟨9, some 0, 0⟩ rfl (Or.inr rfl) 1000
  · exact C10_falsy_ttl_default.2.1 none 3600 (Or.inl rfl)
  · have hset : MemoryCache.set (⟨[], [], 5⟩ : MemoryCache Nat) 0 "k" 7
        (some (svcTtl none 2)) = some ⟨[("k", ⟨7, some 2, 0⟩)], ["k"], 5⟩ := rfl
    exact C10_falsy_ttl_default.2.2.2 Nat 2 ⟨[], [], 5⟩ _ 0 "k" 7 none
      (Or.inl rfl) (by norm_num) hset 3 (by norm_num)
